import Mathlib

/-!
Shallow embedding of the indicator, normalization and snapshot logic of
`dashboard.py` (real-time stock market dashboard).

Prices are modelled as rationals.  The IEEE-754 special values that the
pandas pipeline produces and relies on (NaN as the "missing" marker of a
series cell, signed infinities from division by zero) are modelled
explicitly by the type `FVal`, so that expressions such as
`100 - 100/(1 + gain/loss)` can be evaluated with the same
special-value propagation as in the source.
-/

/-- One cell of a pandas float series: a (finite) numeric value, NaN
("missing value"), or a signed infinity. -/
inductive FVal where
  | nan : FVal
  | inf : FVal
  | ninf : FVal
  | val : ℚ → FVal
deriving DecidableEq, Repr

namespace FVal

/-- IEEE-754 addition on `FVal` (NaN propagates, opposite infinities
give NaN). -/
def add : FVal → FVal → FVal
  | nan, _ => nan
  | inf, nan => nan
  | inf, ninf => nan
  | inf, _ => inf
  | ninf, nan => nan
  | ninf, inf => nan
  | ninf, _ => ninf
  | val _, nan => nan
  | val _, inf => inf
  | val _, ninf => ninf
  | val a, val b => val (a + b)

/-- IEEE-754 negation on `FVal`. -/
def neg : FVal → FVal
  | nan => nan
  | inf => ninf
  | ninf => inf
  | val a => val (-a)

/-- IEEE-754 subtraction on `FVal`. -/
def sub (a b : FVal) : FVal := add a (neg b)

/-- IEEE-754 division on `FVal`: NaN propagates, `inf/inf` is NaN,
a finite value divided by an infinity is `0`, and a finite value divided
by zero is NaN for `0/0` and a sign-directed infinity otherwise. -/
def div : FVal → FVal → FVal
  | nan, _ => nan
  | inf, nan => nan
  | inf, inf => nan
  | inf, ninf => nan
  | inf, val b => if b < 0 then ninf else inf
  | ninf, nan => nan
  | ninf, inf => nan
  | ninf, ninf => nan
  | ninf, val b => if b < 0 then inf else ninf
  | val _, nan => nan
  | val _, inf => val 0
  | val _, ninf => val 0
  | val a, val b =>
      if b = 0 then (if a = 0 then nan else if 0 < a then inf else ninf)
      else val (a / b)

/-- The comparison `x > 0` on a series cell; a NaN compares as `false`,
exactly as in pandas. -/
def gtZ : FVal → Bool
  | val q => decide (0 < q)
  | inf => true
  | _ => false

/-- The comparison `x < 0` on a series cell; a NaN compares as `false`. -/
def ltZ : FVal → Bool
  | val q => decide (q < 0)
  | ninf => true
  | _ => false

/-- Cellwise `Series.where(cond, other)`: keep the cell where the
condition holds, replace it by the scalar `other` elsewhere. -/
def whereKeep (cond : Bool) (d : FVal) (other : ℚ) : FVal :=
  if cond then d else val other

/-- Whether a cell is an ordinary (finite) number. -/
def isNum : FVal → Bool
  | val _ => true
  | _ => false

/-- The rational carried by a numeric cell (`0` on the non-numeric
cells, which every use below excludes). -/
def toQ : FVal → ℚ
  | val q => q
  | _ => 0

end FVal

/-- Model of `Series.rolling(window=w).mean()` with the default
`min_periods = w`: the cell at position `i` is NaN until `w`
observations are available, NaN again when some cell of the trailing
window is missing, and otherwise the arithmetic mean of the trailing
window of length `w` ending at `i`.  (The series rolled in this program
never contain infinities, so the missing-cell test `isNum` coincides
with pandas' non-NaN count.) -/
def rollingMean (xs : List FVal) (w : ℕ) : List FVal :=
  (List.range xs.length).map fun i =>
    if i + 1 < w then FVal.nan
    else
      let win := (xs.take (i + 1)).drop (i + 1 - w)
      if win.all FVal.isNum then FVal.val ((win.map FVal.toQ).sum / w) else FVal.nan

/-- Function `calculate_sma(data, window)` from `dashboard.py`:
`data['Close'].rolling(window=window).mean()`, applied to the `Close`
column of the frame (a column of finite numbers). -/
def calculate_sma (close : List ℚ) (window : ℕ) : List FVal :=
  rollingMean (close.map FVal.val) window

/-- Model of `data['Close'].diff()`: NaN at the first position (no prior close
exists), the consecutive close-to-close difference elsewhere; the length
of the series is preserved. -/
def diffSeries (close : List ℚ) : List FVal :=
  match close with
  | [] => []
  | _ :: _ => FVal.nan :: List.zipWith (fun p c => FVal.val (c - p)) close close.tail

/-- Function `calculate_rsi(data, window)` from `dashboard.py`:
`delta = data['Close'].diff()`;
`gain = (delta.where(delta > 0, 0)).rolling(window).mean()`;
`loss = (-delta.where(delta < 0, 0)).rolling(window).mean()`;
`rs = gain / loss`; result `100 - (100 / (1 + rs))`, all cellwise with
IEEE special-value propagation. -/
def calculate_rsi (close : List ℚ) (window : ℕ) : List FVal :=
  let delta := diffSeries close
  let gain := rollingMean (delta.map fun d => FVal.whereKeep (FVal.gtZ d) d 0) window
  let loss := rollingMean (delta.map fun d => FVal.neg (FVal.whereKeep (FVal.ltZ d) d 0)) window
  List.zipWith
    (fun g l =>
      FVal.sub (FVal.val 100) (FVal.div (FVal.val 100) (FVal.add (FVal.val 1) (FVal.div g l))))
    gain loss

/-! Claim-side closed forms used to state the indicator properties
independently of the rolling-window implementation above. -/

/-- Positive part of a rational. -/
def posQ (q : ℚ) : ℚ := max q 0

/-- The gain cell at index `j`: the positive part of the close-to-close
difference, `0` where the difference is nonpositive, and `0` at index
`0` where no difference exists. -/
def gainAt (close : List ℚ) (j : ℕ) : ℚ :=
  if j = 0 then 0 else posQ (close.getD j 0 - close.getD (j - 1) 0)

/-- The loss cell at index `j`: the magnitude of the negative part of
the close-to-close difference, `0` where the difference is nonnegative,
and `0` at index `0` where no difference exists. -/
def lossAt (close : List ℚ) (j : ℕ) : ℚ :=
  if j = 0 then 0 else posQ (close.getD (j - 1) 0 - close.getD j 0)

/-- Arithmetic mean of the trailing window of length `w` ending at
index `i` of the sequence `f`. -/
def trailingMean (f : ℕ → ℚ) (w i : ℕ) : ℚ :=
  (((List.range w).map fun k => f (i + 1 - w + k)).sum) / w

/-- Trailing-window mean gain ending at index `i`. -/
def meanGain (close : List ℚ) (w i : ℕ) : ℚ := trailingMean (gainAt close) w i

/-- Trailing-window mean loss ending at index `i`. -/
def meanLoss (close : List ℚ) (w i : ℕ) : ℚ := trailingMean (lossAt close) w i

/-- The RSI formula `100 - 100/(1 + g/l)` on the trailing means, with
the zero-denominator cases of the floating pipeline explicit: a zero
mean loss with positive mean gain saturates to `100` (infinite relative
strength), and two zero means give NaN (missing). -/
def rsiFromMeans (g l : ℚ) : FVal :=
  if l = 0 then (if g = 0 then FVal.nan else FVal.val 100)
  else FVal.val (100 - 100 / (1 + g / l))

/-! ### Snapshot step -/

/-- One OHLCV bar of the normalized frame. -/
structure PricePoint where
  openPrice : ℚ
  high : ℚ
  low : ℚ
  close : ℚ
  volume : ℚ
deriving DecidableEq, Repr

/-- Failure of the snapshot block: the unguarded positional accesses
`data.iloc[-1]` / `data.iloc[-2]` raise `IndexError` on a frame with too
few rows. -/
inductive SnapErr where
  | indexError : SnapErr
deriving DecidableEq, Repr

/-- The headline metrics displayed by the dashboard. -/
structure Snapshot where
  latest_close : ℚ
  prev_close : ℚ
  change : ℚ
  change_pct : ℚ
  day_high : ℚ
  day_low : ℚ
deriving DecidableEq, Repr

/-- Model of `Series.max()` of a numeric column (the snapshot block only
evaluates it on nonempty frames; on an empty one pandas returns NaN,
rendered here as `0`). -/
def colMax : List ℚ → ℚ
  | [] => 0
  | x :: xs => xs.foldl max x

/-- Model of `Series.min()` of a numeric column, as `colMax`. -/
def colMin : List ℚ → ℚ
  | [] => 0
  | x :: xs => xs.foldl min x

/-- The snapshot block of `dashboard.py`:
`latest_data = data.iloc[-1]`; `prev_close = data.iloc[-2]['Close']`;
`price_change = latest_data['Close'] - prev_close`;
`price_change_pct = (price_change / prev_close) * 100`;
day high/low are `data['High'].max()` and `data['Low'].min()`.
The positional accesses are unguarded, so a frame with fewer than two
rows raises `IndexError` (`SnapErr.indexError`); there is no explicit
length check in the source. -/
def price_change (data : List PricePoint) : Except SnapErr Snapshot :=
  match data.reverse[0]?, data.reverse[1]? with
  | some latest, some prevRow =>
      let prev_close := prevRow.close
      let change := latest.close - prev_close
      .ok { latest_close := latest.close
            prev_close := prev_close
            change := change
            change_pct := (change / prev_close) * 100
            day_high := colMax (data.map PricePoint.high)
            day_low := colMin (data.map PricePoint.low) }
  | _, _ => .error .indexError

/-! ### Data-source adapter and time-series normalizer -/

/-- A raw inner row of the JSON payload: provider field name ↦ string
cell value. -/
abbrev RawRow := List (String × String)

/-- The raw series dictionary: timestamp string ↦ raw row (a decoded
Python dict, so keys are unique). -/
abbrev RawDict := List (String × RawRow)

/-- The decoded top-level JSON payload. -/
abbrev Payload := List (String × RawDict)

/-- The fixed column renaming of `get_stock_data`
(`df.rename(columns={...})`): the five provider field names map to
canonical names; pandas `rename` keeps any other column under its
original name. -/
def renameColumn (c : String) : String :=
  if c = "1. open" then "Open"
  else if c = "2. high" then "High"
  else if c = "3. low" then "Low"
  else if c = "4. close" then "Close"
  else if c = "5. volume" then "Volume"
  else c

/-- Numeric value of a decimal digit string. -/
def digitsToNat (cs : List Char) : ℕ :=
  cs.foldl (fun a c => a * 10 + (c.toNat - 48)) 0

/-- Model of `pd.to_numeric` on one string cell: an optional minus sign and a
digit string with at most one decimal point.  `none` models the
exception pandas raises on a malformed (non-numeric) cell. -/
def parseNumeric (s : String) : Option ℚ :=
  let cs := s.data
  let sgn : ℚ := if cs.head? = some '-' then -1 else 1
  let cs2 := if cs.head? = some '-' then cs.tail else cs
  let intPart := cs2.takeWhile (· != '.')
  let rest := cs2.dropWhile (· != '.')
  match rest with
  | [] =>
      if intPart.all Char.isDigit && !intPart.isEmpty then
        some (sgn * digitsToNat intPart)
      else none
  | _ :: frac =>
      if intPart.all Char.isDigit && frac.all Char.isDigit &&
          (!intPart.isEmpty || !frac.isEmpty) then
        some (sgn * ((digitsToNat intPart : ℚ) + (digitsToNat frac : ℚ) / (10 : ℚ) ^ frac.length))
      else none

/-- Numeric value of a digit character. -/
def digitVal (c : Char) : ℕ := c.toNat - 48

/-- Model of `pd.to_datetime` on one index cell, for the provider timestamp
format `"YYYY-MM-DD HH:MM:SS"` (spec §6).  The instant is encoded as
`((((year·100 + month)·100 + day)·100 + hour)·100 + minute)·100 + second`,
whose numeric order coincides with chronological order.  `none` models
the exception pandas raises on a malformed timestamp. -/
def toDatetime (s : String) : Option ℕ :=
  let cs := s.data
  let c := fun i => cs.getD i ' '
  let y := digitVal (c 0) * 1000 + digitVal (c 1) * 100 + digitVal (c 2) * 10 + digitVal (c 3)
  let mo := digitVal (c 5) * 10 + digitVal (c 6)
  let d := digitVal (c 8) * 10 + digitVal (c 9)
  let h := digitVal (c 11) * 10 + digitVal (c 12)
  let mi := digitVal (c 14) * 10 + digitVal (c 15)
  let sec := digitVal (c 17) * 10 + digitVal (c 18)
  if cs.length = 19 ∧
      (c 0).isDigit ∧ (c 1).isDigit ∧ (c 2).isDigit ∧ (c 3).isDigit ∧
      c 4 = '-' ∧ (c 5).isDigit ∧ (c 6).isDigit ∧ c 7 = '-' ∧
      (c 8).isDigit ∧ (c 9).isDigit ∧ c 10 = ' ' ∧
      (c 11).isDigit ∧ (c 12).isDigit ∧ c 13 = ':' ∧
      (c 14).isDigit ∧ (c 15).isDigit ∧ c 16 = ':' ∧
      (c 17).isDigit ∧ (c 18).isDigit ∧
      1 ≤ mo ∧ mo ≤ 12 ∧ 1 ≤ d ∧ d ≤ 31 ∧ h ≤ 23 ∧ mi ≤ 59 ∧ sec ≤ 59 then
    some (((((y * 100 + mo) * 100 + d) * 100 + h) * 100 + mi) * 100 + sec)
  else none

/-- One normalized row: the renamed columns with `pd.to_numeric` applied
to every cell; `none` if some cell is malformed. -/
def parseRow (r : RawRow) : Option (List (String × ℚ)) :=
  r.mapM fun f => (parseNumeric f.2).map fun q => (renameColumn f.1, q)

/-- A normalized frame: rows keyed by instant. -/
abbrev Frame := List (ℕ × List (String × ℚ))

/-- The normalization part of `get_stock_data`:
`pd.DataFrame.from_dict(..., orient='index')`, the column `rename`,
`pd.to_datetime` on the index, `pd.to_numeric` on every column, and
`sort_index()` (ascending).  Rows of a well-formed payload carry the
same field names (spec §6); a malformed timestamp or cell anywhere is an
uncaught pandas exception, modelled as `none`. -/
def normalizeSeries (d : RawDict) : Option Frame :=
  (d.mapM fun e : String × RawRow => do
      let t ← toDatetime e.1
      let row ← parseRow e.2
      pure (t, row)).map
    (List.insertionSort fun a b => a.1 ≤ b.1)

/-- Result of `get_stock_data` after a successful HTTP exchange. -/
inductive FetchResult where
  /-- The `st.error(...)` branch followed by `return pd.DataFrame()`: an empty
  frame together with an on-screen error description. -/
  | errEmpty : FetchResult
  /-- An exception escaping `get_stock_data`: the `except` clause only
  catches `requests.exceptions.RequestException`, so pandas parsing
  exceptions propagate and kill the interaction. -/
  | crash : FetchResult
  /-- The normalized frame. -/
  | ok : Frame → FetchResult
deriving DecidableEq, Repr

/-- Function `get_stock_data(api_key, symbol)` from `dashboard.py`, modelled from
the decoded JSON payload onward (the HTTP exchange itself is the
external adapter): a payload without the `"Time Series (5min)"` key
yields the empty-frame-with-error-message result; a malformed timestamp
or numeric cell raises an uncaught exception; otherwise the sorted
normalized frame is returned. -/
def get_stock_data (payload : Payload) : FetchResult :=
  match payload.lookup "Time Series (5min)" with
  | none => .errEmpty
  | some d =>
    match normalizeSeries d with
    | none => .crash
    | some rows => .ok rows

/-- The `Close` column of a normalized frame. -/
def closeColumn (rows : Frame) : List ℚ :=
  rows.map fun r => (r.2.lookup "Close").getD 0

/-- One frame row read back as a typed OHLCV bar. -/
def toPricePoint (row : List (String × ℚ)) : PricePoint :=
  { openPrice := (row.lookup "Open").getD 0
    high := (row.lookup "High").getD 0
    low := (row.lookup "Low").getD 0
    close := (row.lookup "Close").getD 0
    volume := (row.lookup "Volume").getD 0 }

deriving instance DecidableEq for Except

/-- What one dashboard interaction computes after the fetch: the block
`if not data.empty:` guards every indicator and snapshot step, so an
empty frame only shows the waiting message. -/
inductive PipelineOutcome where
  /-- The `st.info` branch: no data, no indicator or snapshot step runs. -/
  | waitingNoData : PipelineOutcome
  /-- The interaction died on an uncaught exception before any
  indicator or snapshot step. -/
  | crashed : PipelineOutcome
  /-- The annotated frame: short SMA, long SMA and RSI columns, plus the
  snapshot metrics. -/
  | rendered : List FVal → List FVal → List FVal → Except SnapErr Snapshot → PipelineOutcome
deriving DecidableEq, Repr

/-- The main block of `dashboard.py` after `get_stock_data`, down to the
snapshot metrics (chart construction excluded). -/
def runDashboard (payload : Payload) (smaShortW smaLongW rsiW : ℕ) : PipelineOutcome :=
  match get_stock_data payload with
  | .errEmpty => .waitingNoData
  | .crash => .crashed
  | .ok rows =>
    if rows.isEmpty then .waitingNoData
    else
      let close := closeColumn rows
      .rendered (calculate_sma close smaShortW) (calculate_sma close smaLongW)
        (calculate_rsi close rsiW)
        (price_change (rows.map fun r => toPricePoint r.2))

/-- The column names of each row of a fetch result (empty for the error
outcomes); used to state which columns survive normalization. -/
def resultColumns : FetchResult → List (List String)
  | FetchResult.ok rows => rows.map fun r => r.2.map Prod.fst
  | _ => []

/-- Ordering of frame rows by their instant key, as used by
`sort_index()`. -/
instance : IsTotal (ℕ × List (String × ℚ)) (fun a b => a.1 ≤ b.1) :=
  ⟨fun a b => Nat.le_total a.1 b.1⟩

/-- The row ordering is transitive. -/
instance : IsTrans (ℕ × List (String × ℚ)) (fun a b => a.1 ≤ b.1) :=
  ⟨fun _ _ _ => Nat.le_trans⟩

/-- A well-formed sample row of the provider payload. -/
def sampleRow : RawRow :=
  [("1. open", "1"), ("2. high", "2"), ("3. low", "1"), ("4. close", "1"), ("5. volume", "10")]

/-- A two-timestamp sample dictionary (deliberately out of order). -/
def sampleDict : RawDict :=
  [("2024-01-02 10:05:00", sampleRow), ("2024-01-02 10:00:00", sampleRow)]


/-! ## Rolling-window lemmas -/

theorem length_rollingMean (xs : List FVal) (w : ℕ) :
    (rollingMean xs w).length = xs.length := by
  simp [rollingMean]

theorem rollingMean_getD (xs : List FVal) (w i : ℕ) (hi : i < xs.length) :
    (rollingMean xs w).getD i FVal.nan =
      if i + 1 < w then FVal.nan
      else
        if ((xs.take (i + 1)).drop (i + 1 - w)).all FVal.isNum then
          FVal.val ((((xs.take (i + 1)).drop (i + 1 - w)).map FVal.toQ).sum / w)
        else FVal.nan := by
  rw [List.getD_eq_getElem _ _ (by simpa [length_rollingMean] using hi)]
  simp [rollingMean]

theorem window_slice_eq {α : Type} (c : List α) (d : α) (w i : ℕ) (hwi : w ≤ i + 1)
    (hi : i < c.length) :
    (c.take (i + 1)).drop (i + 1 - w) = (List.range w).map fun k => c.getD (i + 1 - w + k) d := by
  apply List.ext_getElem
  · simp
    omega
  · intro k hk1 hk2
    simp only [List.getElem_drop, List.getElem_take, List.getElem_map, List.getElem_range]
    rw [List.getD_eq_getElem _ _ (by simp at hk2 ⊢; omega)]

theorem map_toQ_map_val (l : List ℚ) : (l.map FVal.val).map FVal.toQ = l := by
  induction l with
  | nil => rfl
  | cons a t ih => simp [FVal.toQ, ih]

theorem all_isNum_map_val (l : List ℚ) : (l.map FVal.val).all FVal.isNum = true := by
  induction l with
  | nil => rfl
  | cons a t ih => simp [FVal.isNum, ih]

theorem rollingMean_map_val_getD (c : List ℚ) (w i : ℕ) (hi : i < c.length) :
    (rollingMean (c.map FVal.val) w).getD i FVal.nan =
      if i + 1 < w then FVal.nan
      else FVal.val ((((List.range w).map fun k => c.getD (i + 1 - w + k) 0).sum) / w) := by
  rw [rollingMean_getD _ _ _ (by simpa using hi)]
  by_cases hw : i + 1 < w
  · simp [hw]
  · push_neg at hw
    rw [if_neg (show ¬ i + 1 < w by omega), ← List.map_take, ← List.map_drop,
      if_pos (all_isNum_map_val _), if_neg (show ¬ i + 1 < w by omega)]
    rw [map_toQ_map_val, window_slice_eq c (0 : ℚ) w i hw hi]

theorem range_map_getD (n j : ℕ) (f : ℕ → ℚ) (h : j < n) :
    ((List.range n).map f).getD j 0 = f j := by
  rw [List.getD_eq_getElem _ _ (by simpa using h)]
  simp

/-- C1: for every series and every positive window `w`, the SMA computed
by `calculate_sma` is missing at every index `i < w-1`; at every index
`i ≥ w-1` it equals the arithmetic mean of the close values at indices
`i-w+1..i`; and its value at `i` is unchanged when the series is
replaced by any other series agreeing on that trailing window (locality:
the value does not depend on data outside the window). -/
theorem sma_window_spec (close close2 : List ℚ) (w i : ℕ) (hw : 0 < w)
    (hi : i < close.length) :
    (i < w - 1 → (calculate_sma close w).getD i FVal.nan = FVal.nan) ∧
    (w - 1 ≤ i →
      (calculate_sma close w).getD i FVal.nan =
        FVal.val ((((List.range w).map fun k => close.getD (i + 1 - w + k) 0).sum) / w)) ∧
    (i < close2.length →
      (∀ k, i + 1 - w ≤ k → k ≤ i → close.getD k 0 = close2.getD k 0) →
      (calculate_sma close w).getD i FVal.nan = (calculate_sma close2 w).getD i FVal.nan) := by
  have h1 := rollingMean_map_val_getD close w i hi
  refine ⟨fun hlt => ?_, fun hge => ?_, fun hi2 hagree => ?_⟩
  · unfold calculate_sma
    rw [h1, if_pos (by omega)]
  · unfold calculate_sma
    rw [h1, if_neg (by omega)]
  · have h2 := rollingMean_map_val_getD close2 w i hi2
    unfold calculate_sma
    rw [h1, h2]
    by_cases hlt : i + 1 < w
    · simp [hlt]
    · rw [if_neg hlt, if_neg hlt]
      congr 3
      apply List.map_congr_left
      intro k hk
      rw [List.mem_range] at hk
      exact hagree _ (by omega) (by omega)

/-- Witness for `sma_window_spec`: at `close = [1, 3]`, `w = 2`, `i = 1`
the hypotheses hold and the SMA cell is the mean `2` of the window. -/
theorem sma_window_spec_witness :
    (0 : ℕ) < 2 ∧ (1 : ℕ) < ([(1 : ℚ), 3] : List ℚ).length ∧
      (calculate_sma [(1 : ℚ), 3] 2).getD 1 FVal.nan = FVal.val 2 :=
  ⟨by decide, by decide, by
    have h := (sma_window_spec [(1 : ℚ), 3] [(1 : ℚ), 3] 2 1 (by decide) (by decide)).2.1
      (by decide)
    rw [h]
    norm_num [List.range_succ]⟩

/-! ## RSI lemmas -/

theorem posQ_eq_ite (q : ℚ) : posQ q = if 0 < q then q else 0 := by
  unfold posQ
  by_cases h : 0 < q
  · rw [if_pos h, max_eq_left h.le]
  · rw [if_neg h, max_eq_right (le_of_not_lt h)]

theorem length_diffSeries (c : List ℚ) : (diffSeries c).length = c.length := by
  cases c with
  | nil => rfl
  | cons a t => simp [diffSeries]

theorem diffSeries_getElem_zero (c : List ℚ) (h : 0 < (diffSeries c).length) :
    (diffSeries c)[0] = FVal.nan := by
  cases c with
  | nil => simp [diffSeries] at h
  | cons a t => rfl

theorem diffSeries_getElem_succ (c : List ℚ) (j : ℕ) (h : j + 1 < (diffSeries c).length) :
    (diffSeries c)[j + 1] = FVal.val (c.getD (j + 1) 0 - c.getD j 0) := by
  cases c with
  | nil => simp [diffSeries] at h
  | cons a t =>
    rw [length_diffSeries] at h
    simp only [diffSeries, List.getElem_cons_succ, List.tail_cons, List.getElem_zipWith]
    rw [List.getD_eq_getElem _ _ h, List.getD_eq_getElem _ _ (by omega : j < (a :: t).length)]
    simp

theorem gains_map_eq (c : List ℚ) :
    (diffSeries c).map (fun d => FVal.whereKeep (FVal.gtZ d) d 0) =
      ((List.range c.length).map (gainAt c)).map FVal.val := by
  apply List.ext_getElem
  · simp [length_diffSeries]
  · intro j h1 h2
    simp only [List.getElem_map, List.getElem_range]
    cases j with
    | zero =>
      rw [diffSeries_getElem_zero c (by simpa using h1)]
      simp [FVal.gtZ, FVal.whereKeep, gainAt]
    | succ j =>
      rw [diffSeries_getElem_succ c j (by simpa using h1)]
      simp only [FVal.gtZ, FVal.whereKeep, gainAt, Nat.succ_ne_zero, if_false,
        Nat.add_sub_cancel, posQ_eq_ite]
      by_cases h0 : 0 < c.getD (j + 1) 0 - c.getD j 0
      · rw [if_pos (by simpa using h0), if_pos h0]
      · rw [if_neg (by simpa using h0), if_neg h0]

theorem losses_map_eq (c : List ℚ) :
    (diffSeries c).map (fun d => FVal.neg (FVal.whereKeep (FVal.ltZ d) d 0)) =
      ((List.range c.length).map (lossAt c)).map FVal.val := by
  apply List.ext_getElem
  · simp [length_diffSeries]
  · intro j h1 h2
    simp only [List.getElem_map, List.getElem_range]
    cases j with
    | zero =>
      rw [diffSeries_getElem_zero c (by simpa using h1)]
      simp [FVal.ltZ, FVal.whereKeep, FVal.neg, lossAt]
    | succ j =>
      rw [diffSeries_getElem_succ c j (by simpa using h1)]
      simp only [FVal.ltZ, FVal.whereKeep, lossAt, Nat.succ_ne_zero, if_false,
        Nat.add_sub_cancel, posQ_eq_ite]
      by_cases h0 : c.getD (j + 1) 0 - c.getD j 0 < 0
      · rw [if_pos (by simpa using h0), if_pos (by linarith)]
        simp [FVal.neg, neg_sub]
      · rw [if_neg (by simpa using h0), if_neg (by linarith [not_lt.mp h0])]
        simp [FVal.neg]

theorem gainAt_nonneg (c : List ℚ) (j : ℕ) : 0 ≤ gainAt c j := by
  unfold gainAt
  split
  · exact le_refl 0
  · exact le_max_right _ _

theorem lossAt_nonneg (c : List ℚ) (j : ℕ) : 0 ≤ lossAt c j := by
  unfold lossAt
  split
  · exact le_refl 0
  · exact le_max_right _ _

theorem trailingMean_nonneg (f : ℕ → ℚ) (w i : ℕ) (hf : ∀ j, 0 ≤ f j) :
    0 ≤ trailingMean f w i := by
  unfold trailingMean
  apply div_nonneg _ (by positivity)
  apply List.sum_nonneg
  intro a ha
  simp only [List.mem_map] at ha
  obtain ⟨k, _, rfl⟩ := ha
  exact hf _

/-- Evaluation of one RSI cell `100 - 100/(1 + g/l)` of the floating
pipeline on nonnegative trailing means. -/
theorem rsi_cell_eq (g l : ℚ) (hg : 0 ≤ g) (hl : 0 ≤ l) :
    FVal.sub (FVal.val 100)
      (FVal.div (FVal.val 100) (FVal.add (FVal.val 1) (FVal.div (FVal.val g) (FVal.val l)))) =
      rsiFromMeans g l := by
  by_cases hl0 : l = 0
  · subst hl0
    by_cases hg0 : g = 0
    · subst hg0
      simp [FVal.div, FVal.add, FVal.sub, FVal.neg, rsiFromMeans]
    · have hgpos : 0 < g := lt_of_le_of_ne hg (Ne.symm hg0)
      simp [FVal.div, FVal.add, FVal.sub, FVal.neg, rsiFromMeans, hg0, hgpos]
  · have hlpos : 0 < l := lt_of_le_of_ne hl (Ne.symm hl0)
    have hgl : 0 ≤ g / l := div_nonneg hg hl
    have h1 : (1 : ℚ) + g / l ≠ 0 := by positivity
    simp only [FVal.div, FVal.add, FVal.sub, FVal.neg, rsiFromMeans, hl0, if_false, h1]
    rw [sub_eq_add_neg]

theorem zipWith_getD {α β γ : Type} (f : α → β → γ) (l1 : List α) (l2 : List β) (i : ℕ)
    (d1 : α) (d2 : β) (d3 : γ) (h1 : i < l1.length) (h2 : i < l2.length) :
    (List.zipWith f l1 l2).getD i d3 = f (l1.getD i d1) (l2.getD i d2) := by
  rw [List.getD_eq_getElem _ _ (by simp; omega), List.getElem_zipWith,
    List.getD_eq_getElem _ _ h1, List.getD_eq_getElem _ _ h2]

theorem range_map_window_sum (g : ℕ → ℚ) (n w i : ℕ) (hw : w ≤ i + 1) (hi : i < n) :
    ((List.range w).map fun k => ((List.range n).map g).getD (i + 1 - w + k) 0).sum =
      ((List.range w).map fun k => g (i + 1 - w + k)).sum := by
  congr 1
  apply List.map_congr_left
  intro k hk
  rw [List.mem_range] at hk
  exact range_map_getD n (i + 1 - w + k) g (by omega)

/-- Closed form of one cell of `calculate_rsi`: NaN before the window is
full, otherwise the RSI formula on the trailing means of the gain and
loss sequences. -/
theorem calculate_rsi_getD (c : List ℚ) (w i : ℕ) (hw : 0 < w) (hi : i < c.length) :
    (calculate_rsi c w).getD i FVal.nan =
      if i + 1 < w then FVal.nan
      else rsiFromMeans (meanGain c w i) (meanLoss c w i) := by
  have hrw : calculate_rsi c w =
      List.zipWith
        (fun g l =>
          FVal.sub (FVal.val 100)
            (FVal.div (FVal.val 100) (FVal.add (FVal.val 1) (FVal.div g l))))
        (rollingMean (((List.range c.length).map (gainAt c)).map FVal.val) w)
        (rollingMean (((List.range c.length).map (lossAt c)).map FVal.val) w) := by
    simp only [calculate_rsi]
    rw [gains_map_eq, losses_map_eq]
  rw [hrw, zipWith_getD _ _ _ i FVal.nan FVal.nan FVal.nan
      (by simp [length_rollingMean, hi]) (by simp [length_rollingMean, hi]),
    rollingMean_map_val_getD _ w i (by simpa using hi),
    rollingMean_map_val_getD _ w i (by simpa using hi)]
  by_cases hw2 : i + 1 < w
  · rw [if_pos hw2, if_pos hw2, if_pos hw2]
    rfl
  · push_neg at hw2
    rw [if_neg (not_lt.mpr hw2), if_neg (not_lt.mpr hw2), if_neg (not_lt.mpr hw2),
      range_map_window_sum (gainAt c) c.length w i hw2 hi,
      range_map_window_sum (lossAt c) c.length w i hw2 hi]
    exact rsi_cell_eq _ _ (trailingMean_nonneg _ _ _ (gainAt_nonneg c))
      (trailingMean_nonneg _ _ _ (lossAt_nonneg c))

/-- C2: for every series and positive window, `calculate_rsi` follows
the SMA missing-value rule (NaN before `w` points are available), and at
every index `i ≥ w-1` its cell equals `100 - 100/(1 + g/l)` where `g`
and `l` are the trailing-window arithmetic means of the gain sequence
(positive part of the close-to-close difference) and the loss sequence
(magnitude of the negative part), with the explicit zero-denominator
semantics of `rsiFromMeans`. -/
theorem rsi_formula_spec (close : List ℚ) (w i : ℕ) (hw : 0 < w) (hi : i < close.length) :
    (i < w - 1 → (calculate_rsi close w).getD i FVal.nan = FVal.nan) ∧
    (w - 1 ≤ i →
      (calculate_rsi close w).getD i FVal.nan =
        rsiFromMeans (meanGain close w i) (meanLoss close w i)) := by
  have h := calculate_rsi_getD close w i hw hi
  constructor
  · intro hlt
    rw [h, if_pos (by omega)]
  · intro hge
    rw [h, if_neg (by omega)]

/-- Witness for `rsi_formula_spec` at `close = [1, 2]`, `w = 2`,
`i = 1`. -/
theorem rsi_formula_spec_witness :
    (0 : ℕ) < 2 ∧ (1 : ℕ) < ([(1 : ℚ), 2] : List ℚ).length ∧
      (calculate_rsi [(1 : ℚ), 2] 2).getD 1 FVal.nan =
        rsiFromMeans (meanGain [(1 : ℚ), 2] 2 1) (meanLoss [(1 : ℚ), 2] 2 1) :=
  ⟨by decide, by decide,
    (rsi_formula_spec [(1 : ℚ), 2] 2 1 (by decide) (by decide)).2 (by decide)⟩

theorem rsiFromMeans_val_bounds (g l : ℚ) (hg : 0 ≤ g) (hl : 0 ≤ l) (x : ℚ)
    (hx : rsiFromMeans g l = FVal.val x) : 0 ≤ x ∧ x ≤ 100 := by
  unfold rsiFromMeans at hx
  by_cases hl0 : l = 0
  · rw [if_pos hl0] at hx
    by_cases hg0 : g = 0
    · rw [if_pos hg0] at hx
      simp at hx
    · rw [if_neg hg0] at hx
      obtain rfl : (100 : ℚ) = x := by simpa using hx
      norm_num
  · rw [if_neg hl0] at hx
    obtain rfl : 100 - 100 / (1 + g / l) = x := by simpa using hx
    have hgl : 0 ≤ g / l := div_nonneg hg hl
    have h1 : (0 : ℚ) < 1 + g / l := by positivity
    have h2 : 100 / (1 + g / l) ≤ 100 := div_le_self (by norm_num) (by linarith)
    have h3 : 0 < 100 / (1 + g / l) := by positivity
    constructor <;> linarith

theorem rsiFromMeans_eq_100_iff (g l : ℚ) (hg : 0 ≤ g) (hl : 0 ≤ l) :
    rsiFromMeans g l = FVal.val 100 ↔ l = 0 ∧ 0 < g := by
  unfold rsiFromMeans
  constructor
  · intro hx
    by_cases hl0 : l = 0
    · rw [if_pos hl0] at hx
      by_cases hg0 : g = 0
      · rw [if_pos hg0] at hx
        simp at hx
      · exact ⟨hl0, lt_of_le_of_ne hg (Ne.symm hg0)⟩
    · rw [if_neg hl0] at hx
      have heq : 100 - 100 / (1 + g / l) = 100 := by simpa using hx
      have hgl : 0 ≤ g / l := div_nonneg hg hl
      have h1 : (0 : ℚ) < 1 + g / l := by positivity
      have h3 : 0 < 100 / (1 + g / l) := by positivity
      linarith
  · rintro ⟨hl0, hgpos⟩
    rw [if_pos hl0, if_neg (ne_of_gt hgpos)]

/-- C3: for every series and positive window, whenever a cell of
`calculate_rsi` carries a numeric value it lies in `[0, 100]`; a cell
equals exactly `100` iff the window is full, the trailing-window mean
loss is zero and the mean gain is positive (the zero-denominator case
saturates to `100` instead of propagating an error); and when both
trailing means are zero the cell is NaN — a missing value, not an
error. -/
theorem rsi_bounds_spec (close : List ℚ) (w i : ℕ) (hw : 0 < w) (hi : i < close.length) :
    (∀ x : ℚ, (calculate_rsi close w).getD i FVal.nan = FVal.val x → 0 ≤ x ∧ x ≤ 100) ∧
    ((calculate_rsi close w).getD i FVal.nan = FVal.val 100 ↔
      w - 1 ≤ i ∧ meanLoss close w i = 0 ∧ 0 < meanGain close w i) ∧
    (w - 1 ≤ i → meanGain close w i = 0 → meanLoss close w i = 0 →
      (calculate_rsi close w).getD i FVal.nan = FVal.nan) := by
  have h := calculate_rsi_getD close w i hw hi
  have hg : 0 ≤ meanGain close w i := trailingMean_nonneg _ _ _ (gainAt_nonneg close)
  have hl : 0 ≤ meanLoss close w i := trailingMean_nonneg _ _ _ (lossAt_nonneg close)
  refine ⟨?_, ?_, ?_⟩
  · intro x hx
    rw [h] at hx
    by_cases hlt : i + 1 < w
    · rw [if_pos hlt] at hx
      simp at hx
    · rw [if_neg hlt] at hx
      exact rsiFromMeans_val_bounds _ _ hg hl x hx
  · constructor
    · intro hx
      rw [h] at hx
      by_cases hlt : i + 1 < w
      · rw [if_pos hlt] at hx
        simp at hx
      · rw [if_neg hlt] at hx
        have hmeans := (rsiFromMeans_eq_100_iff _ _ hg hl).mp hx
        exact ⟨by omega, hmeans.1, hmeans.2⟩
    · rintro ⟨hge, hl0, hgpos⟩
      rw [h, if_neg (by omega)]
      exact (rsiFromMeans_eq_100_iff _ _ hg hl).mpr ⟨hl0, hgpos⟩
  · intro hge hg0 hl0
    rw [h, if_neg (by omega)]
    unfold rsiFromMeans
    rw [if_pos hl0, if_pos hg0]

/-- Witness for `rsi_bounds_spec`: at `close = [1, 2]`, `w = 2`, `i = 1`
the mean loss is zero, the mean gain is `1/2`, and the RSI cell
saturates to exactly `100`. -/
theorem rsi_bounds_spec_witness :
    (0 : ℕ) < 2 ∧ (1 : ℕ) < ([(1 : ℚ), 2] : List ℚ).length ∧
      (calculate_rsi [(1 : ℚ), 2] 2).getD 1 FVal.nan = FVal.val 100 :=
  ⟨by decide, by decide, by
    refine ((rsi_bounds_spec [(1 : ℚ), 2] 2 1 (by decide) (by decide)).2.1).mpr
      ⟨by decide, ?_, ?_⟩
    · norm_num [meanLoss, trailingMean, lossAt, posQ, List.range_succ]
    · norm_num [meanGain, trailingMean, gainAt, posQ, List.range_succ]⟩

theorem trailingMean_at_first_full (f : ℕ → ℚ) (w : ℕ) (hw : 0 < w) (hf0 : f 0 = 0) :
    trailingMean f w (w - 1) = (((List.range (w - 1)).map fun k => f (k + 1)).sum) / w := by
  obtain ⟨w2, rfl⟩ : ∃ w2, w = w2 + 1 := ⟨w - 1, by omega⟩
  unfold trailingMean
  congr 1
  have hidx : (List.range (w2 + 1)).map (fun k => f (w2 + 1 - 1 + 1 - (w2 + 1) + k)) =
      (List.range (w2 + 1)).map f := by
    apply List.map_congr_left
    intro k _
    congr 1
    omega
  rw [hidx, List.range_succ_eq_map, List.map_cons, hf0, List.sum_cons, zero_add, List.map_map]
  simp only [Nat.add_sub_cancel]
  congr 1

/-- Counterexample to C10 as stated: the flat two-point series `[1, 1]`
has at least `window = 2` points, yet the RSI cell at index
`window - 1 = 1` is NaN (missing), not a defined value: every averaged
difference is zero, both trailing means vanish, and the relative
strength is the indeterminate `0/0`. -/
theorem rsi_defined_at_window_counterexample :
    2 ≤ ([(1 : ℚ), 1] : List ℚ).length ∧
      (calculate_rsi [(1 : ℚ), 1] 2).getD 1 FVal.nan = FVal.nan := by
  refine ⟨by decide, ?_⟩
  rw [calculate_rsi_getD [(1 : ℚ), 1] 2 1 (by decide) (by decide), if_neg (by decide)]
  norm_num [rsiFromMeans, meanGain, meanLoss, trailingMean, gainAt, lossAt, posQ,
    List.range_succ]

/-- C10 (amended): `calculate_rsi` coerces the nonexistent first
period-over-period difference to a zero gain cell and a zero loss cell
rather than a missing one; consequently, for every series with at least
`window` points, the trailing means at index `window - 1` average only
the `window - 1` actual differences together with one fabricated zero
(the sums below have `window - 1` terms yet are divided by `window`),
and the RSI cell there is defined (non-NaN) whenever those two means are
not both zero. -/
theorem rsi_first_diff_zero_spec (close : List ℚ) (w : ℕ) (hw : 0 < w)
    (hlen : w ≤ close.length) :
    ((diffSeries close).map fun d => FVal.whereKeep (FVal.gtZ d) d 0).getD 0 FVal.nan
        = FVal.val 0 ∧
    ((diffSeries close).map fun d => FVal.neg (FVal.whereKeep (FVal.ltZ d) d 0)).getD 0 FVal.nan
        = FVal.val 0 ∧
    meanGain close w (w - 1) =
      (((List.range (w - 1)).map fun k =>
          posQ (close.getD (k + 1) 0 - close.getD k 0)).sum) / w ∧
    meanLoss close w (w - 1) =
      (((List.range (w - 1)).map fun k =>
          posQ (close.getD k 0 - close.getD (k + 1) 0)).sum) / w ∧
    (¬(meanGain close w (w - 1) = 0 ∧ meanLoss close w (w - 1) = 0) →
      (calculate_rsi close w).getD (w - 1) FVal.nan ≠ FVal.nan) := by
  have hpos : 0 < close.length := lt_of_lt_of_le hw hlen
  refine ⟨?_, ?_, ?_, ?_, ?_⟩
  · rw [gains_map_eq, List.getD_eq_getElem _ _ (by simpa using hpos)]
    simp [gainAt]
  · rw [losses_map_eq, List.getD_eq_getElem _ _ (by simpa using hpos)]
    simp [lossAt]
  · unfold meanGain
    rw [trailingMean_at_first_full (gainAt close) w hw (by simp [gainAt])]
    congr 2
  · unfold meanLoss
    rw [trailingMean_at_first_full (lossAt close) w hw (by simp [lossAt])]
    congr 2
  · intro hne
    rw [calculate_rsi_getD close w (w - 1) hw (by omega), if_neg (by omega)]
    unfold rsiFromMeans
    by_cases hl0 : meanLoss close w (w - 1) = 0
    · rw [if_pos hl0, if_neg (fun hg0 => hne ⟨hg0, hl0⟩)]
      simp
    · rw [if_neg hl0]
      simp

/-- Witness for `rsi_first_diff_zero_spec`: on `close = [1, 2]` with
`w = 2` the mean gain is `1/2 ≠ 0`, so the RSI cell at index `1` is
defined. -/
theorem rsi_first_diff_zero_spec_witness :
    (0 : ℕ) < 2 ∧ 2 ≤ ([(1 : ℚ), 2] : List ℚ).length ∧
      (calculate_rsi [(1 : ℚ), 2] 2).getD 1 FVal.nan ≠ FVal.nan :=
  ⟨by decide, by decide, by
    have h := (rsi_first_diff_zero_spec [(1 : ℚ), 2] 2 (by decide) (by decide)).2.2.2.2
    refine h ?_
    rintro ⟨hg, -⟩
    norm_num [meanGain, trailingMean, gainAt, posQ, List.range_succ] at hg⟩

/-! ## Snapshot lemmas -/

theorem le_foldl_max (xs : List ℚ) (a : ℚ) :
    a ≤ xs.foldl max a ∧ ∀ x ∈ xs, x ≤ xs.foldl max a := by
  induction xs generalizing a with
  | nil => simp
  | cons y t ih =>
    refine ⟨le_trans (le_max_left a y) (ih (max a y)).1, ?_⟩
    intro x hx
    rcases List.mem_cons.mp hx with rfl | hx
    · exact le_trans (le_max_right a x) (ih (max a x)).1
    · exact (ih (max a y)).2 x hx

theorem foldl_max_mem (xs : List ℚ) (a : ℚ) : xs.foldl max a = a ∨ xs.foldl max a ∈ xs := by
  induction xs generalizing a with
  | nil => simp
  | cons y t ih =>
    rw [List.foldl_cons]
    rcases ih (max a y) with h | h
    · rcases max_cases a y with ⟨hm, _⟩ | ⟨hm, _⟩
      · left
        rw [h, hm]
      · right
        rw [h, hm]
        exact List.mem_cons_self y t
    · right
      exact List.mem_cons_of_mem _ h

theorem foldl_min_le (xs : List ℚ) (a : ℚ) :
    xs.foldl min a ≤ a ∧ ∀ x ∈ xs, xs.foldl min a ≤ x := by
  induction xs generalizing a with
  | nil => simp
  | cons y t ih =>
    refine ⟨le_trans (ih (min a y)).1 (min_le_left a y), ?_⟩
    intro x hx
    rcases List.mem_cons.mp hx with rfl | hx
    · exact le_trans (ih (min a x)).1 (min_le_right a x)
    · exact (ih (min a y)).2 x hx

theorem foldl_min_mem (xs : List ℚ) (a : ℚ) : xs.foldl min a = a ∨ xs.foldl min a ∈ xs := by
  induction xs generalizing a with
  | nil => simp
  | cons y t ih =>
    rw [List.foldl_cons]
    rcases ih (min a y) with h | h
    · rcases min_cases a y with ⟨hm, _⟩ | ⟨hm, _⟩
      · left
        rw [h, hm]
      · right
        rw [h, hm]
        exact List.mem_cons_self y t
    · right
      exact List.mem_cons_of_mem _ h

theorem colMax_spec (xs : List ℚ) (hx : xs ≠ []) :
    colMax xs ∈ xs ∧ ∀ x ∈ xs, x ≤ colMax xs := by
  cases xs with
  | nil => exact absurd rfl hx
  | cons a t =>
    rw [show colMax (a :: t) = t.foldl max a from rfl]
    constructor
    · rcases foldl_max_mem t a with h | h
      · rw [h]
        exact List.mem_cons_self a t
      · exact List.mem_cons_of_mem _ h
    · intro x hx2
      rcases List.mem_cons.mp hx2 with rfl | hx2
      · exact (le_foldl_max t x).1
      · exact (le_foldl_max t a).2 x hx2

theorem colMin_spec (xs : List ℚ) (hx : xs ≠ []) :
    colMin xs ∈ xs ∧ ∀ x ∈ xs, colMin xs ≤ x := by
  cases xs with
  | nil => exact absurd rfl hx
  | cons a t =>
    rw [show colMin (a :: t) = t.foldl min a from rfl]
    constructor
    · rcases foldl_min_mem t a with h | h
      · rw [h]
        exact List.mem_cons_self a t
      · exact List.mem_cons_of_mem _ h
    · intro x hx2
      rcases List.mem_cons.mp hx2 with rfl | hx2
      · exact (foldl_min_le t x).1
      · exact (foldl_min_le t a).2 x hx2

/-- C4: on every series with at least two points the snapshot block
succeeds and computes: the latest close, the close of the second-to-last
point, their difference `change`, the percentage change
`100 × change / prev_close`, the maximum of `high` over the whole
series, and the minimum of `low` over the whole series. -/
theorem snapshot_spec (data : List PricePoint) (hlen : 2 ≤ data.length) :
    ∃ s, price_change data = Except.ok s ∧
      s.latest_close = (data.getD (data.length - 1) ⟨0, 0, 0, 0, 0⟩).close ∧
      s.prev_close = (data.getD (data.length - 2) ⟨0, 0, 0, 0, 0⟩).close ∧
      s.change = s.latest_close - s.prev_close ∧
      s.change_pct = 100 * s.change / s.prev_close ∧
      s.day_high ∈ data.map PricePoint.high ∧
      (∀ p ∈ data, p.high ≤ s.day_high) ∧
      s.day_low ∈ data.map PricePoint.low ∧
      (∀ p ∈ data, s.day_low ≤ p.low) := by
  have hdne : data ≠ [] := by
    intro h0
    rw [h0] at hlen
    simp at hlen
  have hne : data.map PricePoint.high ≠ [] := by
    simpa using hdne
  have hne2 : data.map PricePoint.low ≠ [] := by
    simpa using hdne
  have h1 : data.reverse[0]? = some (data.getD (data.length - 1) ⟨0, 0, 0, 0, 0⟩) := by
    rw [List.getElem?_reverse (l := data) (i := 0) (by omega), List.getD_eq_getElem?_getD,
      Nat.sub_zero, List.getElem?_eq_getElem (l := data) (n := data.length - 1) (by omega)]
    simp
  have h2 : data.reverse[1]? = some (data.getD (data.length - 2) ⟨0, 0, 0, 0, 0⟩) := by
    rw [List.getElem?_reverse (l := data) (i := 1) (by omega), List.getD_eq_getElem?_getD,
      show data.length - 1 - 1 = data.length - 2 by omega,
      List.getElem?_eq_getElem (l := data) (n := data.length - 2) (by omega)]
    simp
  have hpc : price_change data =
      Except.ok
        { latest_close := (data.getD (data.length - 1) ⟨0, 0, 0, 0, 0⟩).close
          prev_close := (data.getD (data.length - 2) ⟨0, 0, 0, 0, 0⟩).close
          change := (data.getD (data.length - 1) ⟨0, 0, 0, 0, 0⟩).close -
            (data.getD (data.length - 2) ⟨0, 0, 0, 0, 0⟩).close
          change_pct := ((data.getD (data.length - 1) ⟨0, 0, 0, 0, 0⟩).close -
            (data.getD (data.length - 2) ⟨0, 0, 0, 0, 0⟩).close) /
            (data.getD (data.length - 2) ⟨0, 0, 0, 0, 0⟩).close * 100
          day_high := colMax (data.map PricePoint.high)
          day_low := colMin (data.map PricePoint.low) } := by
    unfold price_change
    rw [h1, h2]
  refine ⟨_, hpc, rfl, rfl, rfl, ?_, ?_, ?_, ?_, ?_⟩
  · show _ / _ * 100 = 100 * _ / _
    ring
  · exact (colMax_spec _ hne).1
  · intro p hp
    exact (colMax_spec _ hne).2 _ (List.mem_map_of_mem _ hp)
  · exact (colMin_spec _ hne2).1
  · intro p hp
    exact (colMin_spec _ hne2).2 _ (List.mem_map_of_mem _ hp)

/-- Witness for `snapshot_spec`: the 2-point series with closes `100`
then `110` yields `change = 10` and `change_pct = 10`. -/
theorem snapshot_spec_witness :
    2 ≤ ([⟨1, 2, 0, 100, 1⟩, ⟨1, 3, 1, 110, 1⟩] : List PricePoint).length ∧
      ∃ s, price_change [⟨1, 2, 0, 100, 1⟩, ⟨1, 3, 1, 110, 1⟩] = Except.ok s ∧
        s.change = 10 ∧ s.change_pct = 10 := by
  refine ⟨by decide, ?_⟩
  obtain ⟨s, hs, hlatest, hprev, hchange, hpct, -, -, -, -⟩ :=
    snapshot_spec [⟨1, 2, 0, 100, 1⟩, ⟨1, 3, 1, 110, 1⟩] (by decide)
  refine ⟨s, hs, ?_, ?_⟩
  · rw [hchange, hlatest, hprev]
    norm_num
  · rw [hpct, hchange, hlatest, hprev]
    norm_num

/-- C5, evaluated at the failing input: on a one-point series the
snapshot block raises the unguarded out-of-bounds access
(`data.iloc[-2]` → `IndexError`).  The source contains no length check
and no `InsufficientDataError`: the claimed explicit guard is absent, so
a too-short series dies on the positional access itself. -/
theorem snapshot_single_point_index_error :
    price_change [⟨1, 2, 1, 1, 1⟩] = Except.error SnapErr.indexError := rfl

/-- C6: whenever the expected series key `"Time Series (5min)"` is
absent from the top-level payload, `get_stock_data` returns the
empty-frame result together with an on-screen error description (it
does not crash), and the dashboard interaction then only shows the
waiting message: no indicator and no snapshot step runs on that empty
result. -/
theorem schema_error_spec (payload : Payload) (s1 s2 s3 : ℕ)
    (habs : payload.lookup "Time Series (5min)" = none) :
    get_stock_data payload = FetchResult.errEmpty ∧
      runDashboard payload s1 s2 s3 = PipelineOutcome.waitingNoData := by
  constructor
  · unfold get_stock_data
    rw [habs]
  · unfold runDashboard get_stock_data
    rw [habs]

/-- Witness for `schema_error_spec` at the empty payload. -/
theorem schema_error_spec_witness :
    (([] : Payload).lookup "Time Series (5min)" = none) ∧
      get_stock_data [] = FetchResult.errEmpty ∧
      runDashboard [] 20 50 14 = PipelineOutcome.waitingNoData :=
  ⟨rfl, (schema_error_spec [] 20 50 14 rfl).1, (schema_error_spec [] 20 50 14 rfl).2⟩

/-- C8, evaluated at the failing inputs: a payload whose series carries
a malformed timestamp, or a non-numeric field value, makes
`get_stock_data` die on an uncaught pandas exception
(`FetchResult.crash`) and kills the whole interaction
(`PipelineOutcome.crashed`).  The `except` clause of the source catches
only `requests.exceptions.RequestException`, so no classified
`ParseError` with an empty result and an error description is ever
produced. -/
theorem parse_error_crash_eval :
    get_stock_data [("Time Series (5min)", [("not-a-date", sampleRow)])] =
        FetchResult.crash ∧
      get_stock_data
          [("Time Series (5min)",
            [("2024-01-02 10:00:00",
              [("1. open", "1"), ("2. high", "2"), ("3. low", "1"), ("4. close", "abc"),
               ("5. volume", "10")])])] = FetchResult.crash ∧
      runDashboard [("Time Series (5min)", [("not-a-date", sampleRow)])] 20 50 14 =
        PipelineOutcome.crashed :=
  ⟨rfl, rfl, rfl⟩

/-- Counterexample to C9 as stated: a payload row carrying the unknown
sixth field `"6. foo"` survives normalization with its original name —
pandas `rename` keeps columns outside the mapping, so the output is not
restricted to the five canonical columns. -/
theorem unknown_field_kept_counterexample :
    resultColumns
        (get_stock_data
          [("Time Series (5min)",
            [("2024-01-02 10:00:00", sampleRow ++ [("6. foo", "7")])])]) =
      [["Open", "High", "Low", "Close", "Volume", "6. foo"]] := rfl

theorem parseRow_columns (r : RawRow) (row : List (String × ℚ)) (hr : parseRow r = some row) :
    row.map Prod.fst = r.map fun f => renameColumn f.1 := by
  induction r generalizing row with
  | nil =>
    rw [parseRow, List.mapM_nil] at hr
    obtain rfl : ([] : List (String × ℚ)) = row := by simpa using hr
    rfl
  | cons f t ih =>
    rw [parseRow, List.mapM_cons] at hr
    cases hpn : parseNumeric f.2 with
    | none =>
      rw [hpn] at hr
      simp at hr
    | some q =>
      rw [hpn] at hr
      cases hpt : t.mapM fun g => (parseNumeric g.2).map fun q2 => (renameColumn g.1, q2) with
      | none =>
        rw [hpt] at hr
        simp at hr
      | some trow =>
        rw [hpt] at hr
        simp at hr
        subst hr
        simp only [List.map_cons]
        rw [ih trow hpt]

/-- C9 (amended): the column renaming is the fixed mapping sending the
five provider field names to their canonical names and leaving every
other name unchanged; a field outside the mapping is therefore retained
in the normalized row under its original name (pandas `rename` does not
drop unknown columns), and the output columns are exactly the renamed
input field names. -/
theorem rename_spec (r : RawRow) (hr : (parseRow r).isSome = true) :
    renameColumn "1. open" = "Open" ∧ renameColumn "2. high" = "High" ∧
    renameColumn "3. low" = "Low" ∧ renameColumn "4. close" = "Close" ∧
    renameColumn "5. volume" = "Volume" ∧
    (∀ c, c ≠ "1. open" → c ≠ "2. high" → c ≠ "3. low" → c ≠ "4. close" →
      c ≠ "5. volume" → renameColumn c = c) ∧
    ((parseRow r).getD []).map Prod.fst = r.map fun f => renameColumn f.1 := by
  obtain ⟨row, hrow⟩ := Option.isSome_iff_exists.mp hr
  refine ⟨rfl, rfl, rfl, rfl, rfl, ?_, ?_⟩
  · intro c h1 h2 h3 h4 h5
    simp [renameColumn, h1, h2, h3, h4, h5]
  · rw [hrow]
    exact parseRow_columns r row hrow

/-- Witness for `rename_spec`: a row with the known field `"1. open"`
and the unknown field `"6. foo"` keeps the latter under its original
name. -/
theorem rename_spec_witness :
    ((parseRow [("1. open", "1"), ("6. foo", "7")]).isSome = true) ∧
      ((parseRow [("1. open", "1"), ("6. foo", "7")]).getD []).map Prod.fst =
        ["Open", "6. foo"] :=
  ⟨rfl, by
    have h := (rename_spec [("1. open", "1"), ("6. foo", "7")] rfl).2.2.2.2.2.2
    rw [h]
    rfl⟩

/-! ## Normalizer lemmas -/

theorem char_isDigit_toNat (ch : Char) (h : ch.isDigit = true) :
    48 ≤ ch.toNat ∧ ch.toNat ≤ 57 := by
  simp only [Char.isDigit, Bool.and_eq_true, decide_eq_true_eq] at h
  exact h

theorem char_eq_of_toNat_eq (a b : Char) (h : a.toNat = b.toNat) : a = b := by
  have h2 := congrArg Char.ofNat h
  rwa [Char.ofNat_toNat, Char.ofNat_toNat] at h2

set_option maxHeartbeats 2000000 in
/-- Two timestamp strings accepted by `toDatetime` with the same encoded
instant are equal: the encoding is injective on the fixed format. -/
theorem toDatetime_inj (s t : String) (n : ℕ) (hs : toDatetime s = some n)
    (ht : toDatetime t = some n) : s = t := by
  simp only [toDatetime] at hs ht
  split at hs
  case isFalse => simp at hs
  case isTrue hps =>
  split at ht
  case isFalse => simp at ht
  case isTrue hpt =>
  rw [Option.some_inj] at hs ht
  obtain ⟨hsl, hs0, hs1, hs2, hs3, hse1, hs5, hs6, hse2, hs8, hs9, hse3, hs11, hs12, hse4,
    hs14, hs15, hse5, hs17, hs18, -, -, -, -, -, -, -⟩ := hps
  obtain ⟨htl, ht0, ht1, ht2, ht3, hte1, ht5, ht6, hte2, ht8, ht9, hte3, ht11, ht12, hte4,
    ht14, ht15, hte5, ht17, ht18, -, -, -, -, -, -, -⟩ := hpt
  unfold digitVal at hs ht
  have bs0 := char_isDigit_toNat _ hs0
  have bs1 := char_isDigit_toNat _ hs1
  have bs2 := char_isDigit_toNat _ hs2
  have bs3 := char_isDigit_toNat _ hs3
  have bs5 := char_isDigit_toNat _ hs5
  have bs6 := char_isDigit_toNat _ hs6
  have bs8 := char_isDigit_toNat _ hs8
  have bs9 := char_isDigit_toNat _ hs9
  have bs11 := char_isDigit_toNat _ hs11
  have bs12 := char_isDigit_toNat _ hs12
  have bs14 := char_isDigit_toNat _ hs14
  have bs15 := char_isDigit_toNat _ hs15
  have bs17 := char_isDigit_toNat _ hs17
  have bs18 := char_isDigit_toNat _ hs18
  have bt0 := char_isDigit_toNat _ ht0
  have bt1 := char_isDigit_toNat _ ht1
  have bt2 := char_isDigit_toNat _ ht2
  have bt3 := char_isDigit_toNat _ ht3
  have bt5 := char_isDigit_toNat _ ht5
  have bt6 := char_isDigit_toNat _ ht6
  have bt8 := char_isDigit_toNat _ ht8
  have bt9 := char_isDigit_toNat _ ht9
  have bt11 := char_isDigit_toNat _ ht11
  have bt12 := char_isDigit_toNat _ ht12
  have bt14 := char_isDigit_toNat _ ht14
  have bt15 := char_isDigit_toNat _ ht15
  have bt17 := char_isDigit_toNat _ ht17
  have bt18 := char_isDigit_toNat _ ht18
  have henc := hs.trans ht.symm
  have heq : (s.data.getD 0 ' ').toNat = (t.data.getD 0 ' ').toNat ∧
      (s.data.getD 1 ' ').toNat = (t.data.getD 1 ' ').toNat ∧
      (s.data.getD 2 ' ').toNat = (t.data.getD 2 ' ').toNat ∧
      (s.data.getD 3 ' ').toNat = (t.data.getD 3 ' ').toNat ∧
      (s.data.getD 5 ' ').toNat = (t.data.getD 5 ' ').toNat ∧
      (s.data.getD 6 ' ').toNat = (t.data.getD 6 ' ').toNat ∧
      (s.data.getD 8 ' ').toNat = (t.data.getD 8 ' ').toNat ∧
      (s.data.getD 9 ' ').toNat = (t.data.getD 9 ' ').toNat ∧
      (s.data.getD 11 ' ').toNat = (t.data.getD 11 ' ').toNat ∧
      (s.data.getD 12 ' ').toNat = (t.data.getD 12 ' ').toNat ∧
      (s.data.getD 14 ' ').toNat = (t.data.getD 14 ' ').toNat ∧
      (s.data.getD 15 ' ').toNat = (t.data.getD 15 ' ').toNat ∧
      (s.data.getD 17 ' ').toNat = (t.data.getD 17 ' ').toNat ∧
      (s.data.getD 18 ' ').toNat = (t.data.getD 18 ' ').toNat := by
    omega
  obtain ⟨q0, q1, q2, q3, q5, q6, q8, q9, q11, q12, q14, q15, q17, q18⟩ := heq
  have hext : s.data = t.data := by
    apply List.ext_getElem (by rw [hsl, htl])
    intro i hi1 hi2
    have hgd : ∀ (u : List Char) (h : i < u.length), u[i] = u.getD i ' ' :=
      fun u h => (List.getD_eq_getElem u ' ' h).symm
    rw [hgd s.data hi1, hgd t.data hi2]
    have hi19 : i < 19 := by omega
    interval_cases i
    · exact char_eq_of_toNat_eq _ _ q0
    · exact char_eq_of_toNat_eq _ _ q1
    · exact char_eq_of_toNat_eq _ _ q2
    · exact char_eq_of_toNat_eq _ _ q3
    · exact hse1.trans hte1.symm
    · exact char_eq_of_toNat_eq _ _ q5
    · exact char_eq_of_toNat_eq _ _ q6
    · exact hse2.trans hte2.symm
    · exact char_eq_of_toNat_eq _ _ q8
    · exact char_eq_of_toNat_eq _ _ q9
    · exact hse3.trans hte3.symm
    · exact char_eq_of_toNat_eq _ _ q11
    · exact char_eq_of_toNat_eq _ _ q12
    · exact hse4.trans hte4.symm
    · exact char_eq_of_toNat_eq _ _ q14
    · exact char_eq_of_toNat_eq _ _ q15
    · exact hse5.trans hte5.symm
    · exact char_eq_of_toNat_eq _ _ q17
    · exact char_eq_of_toNat_eq _ _ q18
  exact congrArg String.mk hext

theorem normalize_mapM_some (d : RawDict)
    (h : ∀ e ∈ d, (toDatetime e.1).isSome = true ∧ (parseRow e.2).isSome = true) :
    ∃ l : List (ℕ × List (String × ℚ)),
      (d.mapM fun e : String × RawRow => do
        let t ← toDatetime e.1
        let row ← parseRow e.2
        pure (t, row)) = some l ∧
      List.Forall₂ (fun (e : String × RawRow) (p : ℕ × List (String × ℚ)) =>
        toDatetime e.1 = some p.1) d l := by
  induction d with
  | nil => exact ⟨[], rfl, List.Forall₂.nil⟩
  | cons e tl ih =>
    obtain ⟨ht, hr⟩ := h e (List.mem_cons_self e tl)
    obtain ⟨m, hm⟩ := Option.isSome_iff_exists.mp ht
    obtain ⟨row, hrow⟩ := Option.isSome_iff_exists.mp hr
    obtain ⟨l, hl, hfa⟩ := ih fun e2 he2 => h e2 (List.mem_cons_of_mem _ he2)
    refine ⟨(m, row) :: l, ?_, List.Forall₂.cons (by simpa using hm) hfa⟩
    rw [List.mapM_cons, hl]
    simp [hm, hrow]

theorem forall2_timestamp_mem_right {d : RawDict} {l : List (ℕ × List (String × ℚ))}
    (hfa : List.Forall₂ (fun (e : String × RawRow) (p : ℕ × List (String × ℚ)) =>
      toDatetime e.1 = some p.1) d l) :
    ∀ p ∈ l, ∃ e ∈ d, toDatetime e.1 = some p.1 := by
  induction hfa with
  | nil =>
    intro p hp
    simp at hp
  | @cons a b d2 l2 hrel hfa2 ih =>
    intro p hp
    rcases List.mem_cons.mp hp with rfl | hp2
    · exact ⟨a, List.mem_cons_self a d2, hrel⟩
    · obtain ⟨e, he, h3⟩ := ih p hp2
      exact ⟨e, List.mem_cons_of_mem _ he, h3⟩

theorem forall2_keys_nodup {d : RawDict} {l : List (ℕ × List (String × ℚ))}
    (hfa : List.Forall₂ (fun (e : String × RawRow) (p : ℕ × List (String × ℚ)) =>
      toDatetime e.1 = some p.1) d l)
    (hkeys : (d.map Prod.fst).Nodup) : (l.map Prod.fst).Nodup := by
  induction hfa with
  | nil => simp
  | @cons a b d2 l2 hrel hfa2 ih =>
    rw [List.map_cons, List.nodup_cons] at hkeys ⊢
    obtain ⟨hnotin, hkeys2⟩ := hkeys
    refine ⟨?_, ih hkeys2⟩
    intro hmem
    obtain ⟨p2, hp2, hpe⟩ := List.mem_map.mp hmem
    obtain ⟨e2, he2, hte2⟩ := forall2_timestamp_mem_right hfa2 p2 hp2
    rw [hpe] at hte2
    have hkey := toDatetime_inj a.1 e2.1 b.1 hrel hte2
    exact hnotin (hkey ▸ List.mem_map_of_mem Prod.fst he2)

theorem sorted_lt_of_sorted_le_nodup (rows : List (ℕ × List (String × ℚ)))
    (hs : List.Sorted (fun a b => a.1 ≤ b.1) rows)
    (hn : (rows.map Prod.fst).Nodup) :
    List.Sorted (fun a b => a.1 < b.1) rows := by
  induction rows with
  | nil => exact List.sorted_nil
  | cons p tl ih =>
    rw [List.sorted_cons] at hs ⊢
    rw [List.map_cons, List.nodup_cons] at hn
    obtain ⟨hp, hs2⟩ := hs
    obtain ⟨hpn, hn2⟩ := hn
    refine ⟨?_, ih hs2 hn2⟩
    intro b hb
    have hle := hp b hb
    have hne : p.1 ≠ b.1 := fun he => hpn (he ▸ List.mem_map_of_mem Prod.fst hb)
    omega

/-- C7: for every well-formed payload dictionary — all timestamps parse,
all rows parse, and the timestamp keys are distinct (a decoded JSON
object) — the normalizer succeeds and yields a frame of the same length
sorted strictly ascending by timestamp; and normalizing the same payload
twice yields identical output (the normalizer is a deterministic pure
function of the payload). -/
theorem normalizer_spec (d : RawDict)
    (hts : ∀ e ∈ d, (toDatetime e.1).isSome = true)
    (hrows : ∀ e ∈ d, (parseRow e.2).isSome = true)
    (hkeys : (d.map Prod.fst).Nodup) :
    ∃ rows, normalizeSeries d = some rows ∧
      rows.length = d.length ∧
      List.Sorted (fun a b => a.1 < b.1) rows ∧
      normalizeSeries d = normalizeSeries d := by
  obtain ⟨l, hl, hfa⟩ := normalize_mapM_some d fun e he => ⟨hts e he, hrows e he⟩
  refine ⟨List.insertionSort (fun a b => a.1 ≤ b.1) l, ?_, ?_, ?_, rfl⟩
  · unfold normalizeSeries
    rw [hl]
    rfl
  · rw [(List.perm_insertionSort _ l).length_eq, ← hfa.length_eq]
  · apply sorted_lt_of_sorted_le_nodup
    · exact List.sorted_insertionSort _ l
    · exact ((List.perm_insertionSort (fun a b : ℕ × List (String × ℚ) => a.1 ≤ b.1) l).map
        Prod.fst).nodup_iff.mpr (forall2_keys_nodup hfa hkeys)

/-- Witness for `normalizer_spec`: on `sampleDict` (two distinct
timestamps, deliberately out of order) the normalizer yields two rows
sorted strictly ascending by instant. -/
theorem normalizer_spec_witness :
    (∀ e ∈ sampleDict, (toDatetime e.1).isSome = true) ∧
      (∀ e ∈ sampleDict, (parseRow e.2).isSome = true) ∧
      (sampleDict.map Prod.fst).Nodup ∧
      (normalizeSeries sampleDict).isSome = true ∧
      ((normalizeSeries sampleDict).getD []).length = 2 ∧
      List.Sorted (fun a b => a.1 < b.1) ((normalizeSeries sampleDict).getD []) := by
  obtain ⟨rows, h1, h2, h3, -⟩ :=
    normalizer_spec sampleDict (by decide) (by decide) (by decide)
  refine ⟨by decide, by decide, by decide, ?_, ?_, ?_⟩
  · rw [h1]
    rfl
  · rw [h1]
    simpa using h2
  · rw [h1]
    exact h3
